import Mathlib

/-!
Verification of the SECS-II serialization library (secs2).

The development shallowly embeds the C++ sources:
  - `secs2.h` (type and value model, `Message`),
  - `byte/length.h` / `byte/length.cpp` (length calculation, length-byte count),
  - `byte/write.h` / `write.cpp` (serialization: `BuildMsgBytes` and helpers),
  - `byte/read.h` / `byte/read.cpp` (deserialization: `LoadMsgBytes` and helpers),
  - `sml.h` / `sml.cpp` (SML pretty-printer),
  - `traits.h` (`GetType`, format codes).

Modelling conventions:
  - Bytes are `Nat` values below 256; buffers are `List Nat`.
  - Machine integers of element width `w` are represented by their byte
    patterns, i.e. `Nat` values below `256 ^ w`.  For signed (`I1..I8`) and
    floating point (`F4/F8`) elements this is the two's-complement /
    IEEE-754 bit pattern, which the codec moves verbatim (big-endian), so
    structural equality of C++ values corresponds to equality of patterns.
  - C++ `bool` elements are represented by their canonical bytes 0 and 1
    (the image of `static_cast<std::byte>(bool)`), see `boolToNat`.
  - The external helpers `bit::ReadBytes` / `bit::WriteBytes` (out of scope
    per the spec, which fixes them to big-endian byte moves) are modelled by
    `readBE` / `writeBE`.
  - `std::error_code` values reaching the library are the two `std::errc`
    constants used in `read.cpp`, modelled by `ErrCode`.
-/

set_option maxHeartbeats 1600000

namespace Secs2

/-- Maximum serialized length, `Message::max_length = 0xFFFFFF` (`secs2.h`). -/
def maxLength : Nat := 0xFFFFFF

/-- Maximum number of length bytes, `max_len_byte_count` (`length.h`). -/
def maxLenByteCount : Nat := 3

/-- The 13 leaf (non-list) SECS-II item kinds (`secs2.h`). -/
inductive LeafTy where
  | binary | boolean | ascii
  | i1 | i2 | i4 | i8
  | u1 | u2 | u4 | u8
  | f4 | f8
deriving DecidableEq, Repr

/-- Element width in bytes, `sizeof(range_value_t<T>)` for each item alias in
`secs2.h` (`Binary`/`Boolean`/`ASCII` are byte-sized). -/
def width : LeafTy → Nat
  | .binary => 1 | .boolean => 1 | .ascii => 1
  | .i1 => 1 | .i2 => 2 | .i4 => 4 | .i8 => 8
  | .u1 => 1 | .u2 => 2 | .u4 => 4 | .u8 => 8
  | .f4 => 4 | .f8 => 8

/-- The 6-bit format codes of the `Type` enum in `secs2.h`. -/
def leafCode : LeafTy → Nat
  | .binary => 0b001000 | .boolean => 0b001001 | .ascii => 0b010000
  | .i1 => 0b011001 | .i2 => 0b011010 | .i4 => 0b011100 | .i8 => 0b011000
  | .u1 => 0b101001 | .u2 => 0b101010 | .u4 => 0b101100 | .u8 => 0b101000
  | .f4 => 0b100100 | .f8 => 0b100000

/-- Human-readable type names from `to_string(Type)` in `secs2.cpp`. -/
def leafName : LeafTy → String
  | .binary => "Binary" | .boolean => "Boolean" | .ascii => "ASCII"
  | .i1 => "I1" | .i2 => "I2" | .i4 => "I4" | .i8 => "I8"
  | .u1 => "U1" | .u2 => "U2" | .u4 => "U4" | .u8 => "U8"
  | .f4 => "F4" | .f8 => "F8"

/-- A SECS-II message value (`Message::Value = ListElem` in `secs2.h`):
either a homogeneous leaf item carrying its elements' byte patterns, or a
list of child values. -/
inductive Value : Type where
  | item (t : LeafTy) (vals : List Nat)
  | list (elems : List Value)
deriving Repr

/-- Canonical byte of a C++ `bool` under `static_cast<std::byte>` (used to
represent `Boolean` elements inside `Value`). -/
def boolToNat (b : Bool) : Nat := if b then 1 else 0

/-- Format code of a value, `GetType` from `traits.h` (`format_code<T>`,
`Type::List = 0`), as the numeric value of the `Type` enum. -/
def GetType : Value → Nat
  | .item t _ => leafCode t
  | .list _ => 0

/-- Element count, `Message::GetSize` from `secs2.cpp`: element count for a
leaf, direct-child count for a list. -/
def GetSize : Value → Nat
  | .item _ vals => vals.length
  | .list elems => elems.length

/-- Serialized length of a value, `CalcLength` from `length.cpp`: payload
byte count (`size() * sizeof(Value)`) for a leaf, direct-child count for a
list. -/
def CalcLength : Value → Nat
  | .item t vals => vals.length * width t
  | .list elems => elems.length

/-- `IsNotExceedLengthByteCountRange` from `length.h`:
`0 < count && count <= max_len_byte_count`. -/
def IsNotExceedLengthByteCountRange (count : Nat) : Bool :=
  0 < count && count ≤ maxLenByteCount

/-- `IsExceedLengthByteCountRange` from `length.h`. -/
def IsExceedLengthByteCountRange (count : Nat) : Bool :=
  !IsNotExceedLengthByteCountRange count

/-- `IsExceedMaxLength` from `length.h`: `size > max_len`. -/
def IsExceedMaxLength (size : Nat) : Bool := maxLength < size

/-- `IsNotExceedMaxLength` from `length.h`. -/
def IsNotExceedMaxLength (size : Nat) : Bool := !IsExceedMaxLength size

/-- `CalcLengthByteCount` from `length.h`: 1 byte for lengths up to
`0xFF`, 2 up to `0xFFFF`, 3 up to `max_len`, otherwise `none`. -/
def CalcLengthByteCount (len : Nat) : Option Nat :=
  if len ≤ 0xFF then some 1
  else if len ≤ 0xFFFF then some 2
  else if IsNotExceedMaxLength len then some 3
  else none

/-- Big-endian byte write of the low `w` bytes of `val`; models
`bit::WriteBytes(val, buf, std::endian::big)` restricted to a `w`-byte
destination (the helper itself is an out-of-scope collaborator which the
spec fixes to big-endian order, most significant byte first). -/
def writeBE : Nat → Nat → List Nat
  | 0, _ => []
  | w + 1, val => writeBE w (val / 256) ++ [val % 256]

/-- Big-endian byte read; models `bit::ReadBytes(span, val, std::endian::big)`
over the whole span. -/
def readBE (bytes : List Nat) : Nat := bytes.foldl (fun acc b => acc * 256 + b) 0

/-- Net effect of the `LengthBytes` constructor in `length.h`: the
`valid_count` big-endian bytes of `len`, where
`valid_count = CalcLengthByteCount(len).value_or(0)` (the constructor
writes three big-endian bytes and shifts the `valid_count` low-order ones
to the front). -/
def LengthBytes (len : Nat) : List Nat :=
  writeBE ((CalcLengthByteCount len).getD 0) len

/-- `BuildFormatByte` from `write.h`: bits 1..0 hold the number of length
bytes, bits 7..2 hold the format code (`bit::SetBits` masks each field to
its width). -/
def BuildFormatByte (code len : Nat) : Nat :=
  (code % 64) * 4 + ((CalcLengthByteCount len).getD 0) % 4

/-- `BuildHeaderBytes` from `write.cpp`, as the byte list it appends: the
format byte followed by the valid length bytes. -/
def BuildHeaderBytes (code len : Nat) : List Nat :=
  BuildFormatByte code len :: LengthBytes len

/-- `CopyBoolValBytes` from `write.cpp`: one byte per element,
`static_cast<std::byte>(val)`, i.e. 1 for `true` and 0 for `false`. -/
def CopyBoolValBytes (vals : List Bool) : List Nat :=
  vals.map (fun b => if b then 1 else 0)

/-- `CopyValBytes` from `write.cpp`, as the byte list it appends: each
element emitted in order as its `width t` bytes in big-endian (one-byte
elements are copied directly; `Boolean` goes through `CopyBoolValBytes`,
which on the canonical 0/1 representation also emits the element's single
byte). -/
def CopyValBytes (t : LeafTy) (vals : List Nat) : List Nat :=
  (vals.map (writeBE (width t))).flatten

mutual

/-- `BuildMsgBytes` from `write.cpp` (both the `Item` and the `List`
overloads, merged over `Value` like the `Message::Value` overload): appends
the header and body to `buf` and returns the appended byte count, or fails
with `none` when a length exceeds `max_length`, truncating `buf` back to
its pre-call size. -/
def BuildMsgBytes (v : Value) (buf : List Nat) : List Nat × Option Nat :=
  match v with
  | .item t vals =>
    let len := vals.length * width t
    if IsNotExceedMaxLength len then
      let out := buf ++ BuildHeaderBytes (leafCode t) len ++ CopyValBytes t vals
      (out, some (out.length - buf.length))
    else (buf, none)
  | .list elems =>
    let len := elems.length
    if IsNotExceedMaxLength len then
      let buf1 := buf ++ BuildHeaderBytes 0 len
      match BuildListElems elems buf1 with
      | (buf2, true) => (buf2, some (buf2.length - buf.length))
      | (buf2, false) => (buf2.take buf.length, none)
    else (buf, none)

/-- The child loop of the `List` overload of `BuildMsgBytes` in
`write.cpp`: serialize each child in order into `buf`; report `false` as
soon as a child fails. -/
def BuildListElems (l : List Value) (buf : List Nat) : List Nat × Bool :=
  match l with
  | [] => (buf, true)
  | v :: rest =>
    match BuildMsgBytes v buf with
    | (buf2, some _) => BuildListElems rest buf2
    | (buf2, none) => (buf2, false)

end

/-- `Message::ToBytes` from `secs2.cpp`: serialize into a fresh buffer;
`none` exactly when `BuildMsgBytes` fails. -/
def ToBytes (v : Value) : Option (List Nat) :=
  match BuildMsgBytes v [] with
  | (buf, some _) => some buf
  | (_, none) => none

/-- The two `std::errc` constants used by `read.cpp` error constructors. -/
inductive ErrCode where
  | messageSize
  | argumentOutOfDomain
deriving DecidableEq, Repr

/-- A deserialization error (`Error = std::pair<std::error_code,
std::string>` from `secs2.h`): a machine kind with a human-readable
message. -/
structure Err where
  code : ErrCode
  msg : String
deriving DecidableEq, Repr

/-- Uppercase hexadecimal digit. -/
def hexDigit (n : Nat) : Char :=
  if n < 10 then Char.ofNat (48 + n) else Char.ofNat (55 + n)

/-- Two-digit uppercase hexadecimal rendering of a byte (the `{:02X}`
format applied to a `std::uint8_t`). -/
def hex2 (v : Nat) : String :=
  String.mk [hexDigit (v / 16 % 16), hexDigit (v % 16)]

/-- `MakeIncompleteDataError` from `read.cpp`:
`std::errc::message_size`, message `"Incomplete data"`. -/
def MakeIncompleteDataError : Err :=
  ⟨.messageSize, "Incomplete data"⟩

/-- `MakeUnknownTypeError` from `read.cpp`:
`std::errc::argument_out_of_domain`, with the unknown code rendered in
two-digit uppercase hex. -/
def MakeUnknownTypeError (code : Nat) : Err :=
  ⟨.argumentOutOfDomain, "Unknown format type: 0x" ++ hex2 code⟩

/-- `MakeUnalignedLengthError` from `read.cpp`:
`std::errc::message_size`, naming the length, the type and its element
size. -/
def MakeUnalignedLengthError (len : Nat) (t : LeafTy) (align : Nat) : Err :=
  ⟨.messageSize,
    "Length " ++ toString len ++ " is not aligned to " ++ leafName t
      ++ " size " ++ toString align⟩

/-- `MakeInvalidLengthByteCountError` from `read.cpp`:
`std::errc::argument_out_of_domain`, naming the count. -/
def MakeInvalidLengthByteCountError (count : Nat) : Err :=
  ⟨.argumentOutOfDomain, "Invalid number of length bytes: " ++ toString count⟩

/-- `ReadFormatByte` from `read.h`: the 6-bit format code (bits 7..2) and
the number of length bytes (bits 1..0). -/
def ReadFormatByte (b : Nat) : Nat × Nat := ((b / 4) % 64, b % 4)

/-- `ReadLength` from `read.h`: read the length from `count` big-endian
bytes when available, otherwise `none`. -/
def ReadLength (bytes : List Nat) (count : Nat) : Option Nat :=
  if count ≤ bytes.length then some (readBE (bytes.take count)) else none

/-- The dispatch target of a format code: the key set of the `loaders` map
in `LoadMsgBytes` (`read.cpp`); `none` for any code outside the
14-variant table. -/
def codeToTy (c : Nat) : Option (Option LeafTy) :=
  if c = 0 then some none
  else if c = 0b001000 then some (some .binary)
  else if c = 0b001001 then some (some .boolean)
  else if c = 0b010000 then some (some .ascii)
  else if c = 0b011001 then some (some .i1)
  else if c = 0b011010 then some (some .i2)
  else if c = 0b011100 then some (some .i4)
  else if c = 0b011000 then some (some .i8)
  else if c = 0b101001 then some (some .u1)
  else if c = 0b101010 then some (some .u2)
  else if c = 0b101100 then some (some .u4)
  else if c = 0b101000 then some (some .u8)
  else if c = 0b100100 then some (some .f4)
  else if c = 0b100000 then some (some .f8)
  else none

/-- `LoadBoolValBytes` from `read.cpp`: check that `len` bytes are
available, then decode each byte `b` as `static_cast<bool>(b)`, i.e.
`b ≠ 0`, represented canonically by 0/1. -/
def LoadBoolValBytes (bytes : List Nat) (len : Nat) :
    Except Err (Value × Nat) :=
  if bytes.length < len then .error MakeIncompleteDataError
  else .ok (.item .boolean ((bytes.take len).map fun b => if b = 0 then 0 else 1),
    len)

/-- Element extraction of the generic `LoadItemValBytes` template in
`read.h`: `count` elements, each read from `width` big-endian bytes at
consecutive offsets. -/
def readElems (w : Nat) : Nat → List Nat → List Nat
  | 0, _ => []
  | n + 1, bytes => readBE (bytes.take w) :: readElems w n (bytes.drop w)

/-- `LoadItemValBytes` from `read.h` together with its `Boolean`
specialization from `read.cpp` (which redirects to `LoadBoolValBytes`):
check that `len` bytes are available, fail `MakeUnalignedLengthError` when
`len` is not a multiple of the element width, and otherwise decode
`len / width` elements, consuming `len` bytes. -/
def LoadItemValBytes (t : LeafTy) (bytes : List Nat) (len : Nat) :
    Except Err (Value × Nat) :=
  if t = .boolean then LoadBoolValBytes bytes len
  else
    if bytes.length < len then .error MakeIncompleteDataError
    else if len % width t ≠ 0 then
      .error (MakeUnalignedLengthError len t (width t))
    else .ok (.item t (readElems (width t) (len / width t) bytes), len)

mutual

/-- `LoadMsgBytes` from `read.cpp`: fail `MakeIncompleteDataError` on an
empty buffer; read the format byte; fail `MakeInvalidLengthByteCountError`
when the length-byte count is out of range; fail `MakeUnknownTypeError`
when the format code is not in the loader table; fail
`MakeIncompleteDataError` when fewer than `count` length bytes remain;
otherwise read the length and run the selected loader on the bytes after
the header, adding the `1 + count` header bytes to its consumed count. -/
def LoadMsgBytes (bytes : List Nat) : Except Err (Value × Nat) :=
  match bytes with
  | [] => .error MakeIncompleteDataError
  | b :: rest =>
    let tc := (b / 4) % 64
    let n := b % 4
    if IsExceedLengthByteCountRange n then
      .error (MakeInvalidLengthByteCountError n)
    else
      match codeToTy tc with
      | none => .error (MakeUnknownTypeError tc)
      | some ty =>
        match ReadLength rest n with
        | none => .error MakeIncompleteDataError
        | some len =>
          match ty with
          | none =>
            match LoadListElems (rest.drop n) len with
            | .error e => .error e
            | .ok (vs, c) => .ok (.list vs, 1 + n + c)
          | some t =>
            match LoadItemValBytes t (rest.drop n) len with
            | .error e => .error e
            | .ok (v, c) => .ok (v, 1 + n + c)
termination_by (bytes.length, 0, 1)
decreasing_by
  simp_wf
  have h1 : (rest.drop n).length ≤ rest.length := by simp
  exact Prod.Lex.left _ _ (by omega)

/-- The child loop of `LoadListValBytes` from `read.cpp`: deserialize
`len` children in order, each from the remainder after the bytes consumed
so far, reporting the children and the total consumed count. -/
def LoadListElems (bytes : List Nat) (len : Nat) :
    Except Err (List Value × Nat) :=
  match len with
  | 0 => .ok ([], 0)
  | count + 1 =>
    match LoadMsgBytes bytes with
    | .error e => .error e
    | .ok (v, c) =>
      match LoadListElems (bytes.drop c) count with
      | .error e => .error e
      | .ok (vs, c2) => .ok (v :: vs, c + c2)
termination_by (bytes.length, len, 0)
decreasing_by
  · simp_wf
    exact Prod.Lex.right _ (Prod.Lex.left _ _ (Nat.succ_pos count))
  · simp_wf
    rcases Nat.lt_or_ge (bytes.length - c) bytes.length with h | h
    · exact Prod.Lex.left _ _ h
    · have heq : bytes.length - c = bytes.length := by omega
      rw [heq]
      exact Prod.Lex.right _ (Prod.Lex.left _ _ (Nat.lt_succ_self count))

end

/-- `LoadListValBytes` from `read.cpp`: wrap the children into a `List`
value (the C++ function accumulates into a `List` directly). -/
def LoadListValBytes (bytes : List Nat) (len : Nat) :
    Except Err (Value × Nat) :=
  match LoadListElems bytes len with
  | .error e => .error e
  | .ok (vs, c) => .ok (.list vs, c)

mutual

/-- Well-formedness of the representation: every element's byte pattern
fits its width, and `Boolean` elements are canonical 0/1 bytes (automatic
in C++ from the element types `uint8_t`, ..., `bool`). -/
def wfV : Value → Bool
  | .item t vals =>
    vals.all fun x => x < (if t = .boolean then 2 else 256 ^ width t)
  | .list elems => wfL elems

/-- Well-formedness of a list of values. -/
def wfL : List Value → Bool
  | [] => true
  | v :: rest => wfV v && wfL rest

end

mutual

/-- A node whose computed length exceeds `max_length` (`maxLength`):
payload byte count for a leaf, direct-child count for a list, recursively
in children. -/
def HasOversized : Value → Bool
  | .item t vals => maxLength < vals.length * width t
  | .list elems => maxLength < elems.length || HasOversizedList elems

/-- Some member has an oversized node. -/
def HasOversizedList : List Value → Bool
  | [] => false
  | v :: rest => HasOversized v || HasOversizedList rest

end

/-- `format_tag` from `sml.h`. -/
def formatTag : LeafTy → String
  | .binary => "B" | .boolean => "Boolean" | .ascii => "A"
  | .i1 => "I1" | .i2 => "I2" | .i4 => "I4" | .i8 => "I8"
  | .u1 => "U1" | .u2 => "U2" | .u4 => "U4" | .u8 => "U8"
  | .f4 => "F4" | .f8 => "F8"

/-- `BuildIndent` from `sml.h`: `lvl * width` spaces. -/
def BuildIndent (lvl w : Nat) : String :=
  String.mk (List.replicate (lvl * w) ' ')

/-- Signed reading of a `w`-byte two's-complement pattern, the numeric
value a C++ `intN_t` element holds. -/
def toSigned (w v : Nat) : Int :=
  if v < 2 ^ (8 * w - 1) then (v : Int) else (v : Int) - 2 ^ (8 * w)

/-- The textual form of one leaf element in SML output (`sml.cpp`):
`std::format("0x{:02X}", val)` for `Binary`, `"true"/"false"` for
`Boolean`, decimal for integers (signed for `I1..I8`).  `F4`/`F8` use the
platform's shortest round-trip decimal, which the spec leaves
platform-specific; rendered here from the bit pattern (no claim depends on
float element text). -/
def formatElem (t : LeafTy) (v : Nat) : String :=
  match t with
  | .binary => "0x" ++ hex2 v
  | .boolean => if v = 0 then "false" else "true"
  | .ascii => String.mk [Char.ofNat (v % 256)]
  | .i1 => toString (toSigned 1 v)
  | .i2 => toString (toSigned 2 v)
  | .i4 => toString (toSigned 4 v)
  | .i8 => toString (toSigned 8 v)
  | .u1 => toString v | .u2 => toString v
  | .u4 => toString v | .u8 => toString v
  | .f4 => toString v | .f8 => toString v

/-- The SML form of a leaf item (`BuildSml` overloads for items in
`sml.h`/`sml.cpp`): the indent, then `<TAG [count] elem elem ...>` with a
single space between elements, `<TAG [0]>` when empty; `ASCII` renders its
whole string once inside double quotes. -/
def BuildItemSml (t : LeafTy) (vals : List Nat) (lvl w : Nat) : String :=
  let spaces := BuildIndent lvl w
  if t = .ascii then
    if vals.isEmpty then spaces ++ "<A [0]>"
    else
      spaces ++ "<A [" ++ toString vals.length ++ "] \""
        ++ String.mk (vals.map fun v => Char.ofNat (v % 256)) ++ "\">"
  else
    if vals.isEmpty then spaces ++ "<" ++ formatTag t ++ " [0]>"
    else
      spaces ++ "<" ++ formatTag t ++ " [" ++ toString vals.length ++ "] "
        ++ String.intercalate " " (vals.map (formatElem t)) ++ ">"

mutual

/-- `BuildSml` from `sml.cpp` (the `Message::Value` dispatch together with
the `List` overload), as the string it writes to the stream: a list opens
with its indent and `<L [n]`, a newline, each child rendered at the next
level followed by a newline, and closes with the indent and `>`. -/
def BuildSml (v : Value) (lvl w : Nat) : String :=
  match v with
  | .item t vals => BuildItemSml t vals lvl w
  | .list elems =>
    BuildIndent lvl w ++ "<L [" ++ toString elems.length ++ "]" ++ "\n"
      ++ BuildSmlElems elems lvl w
      ++ BuildIndent lvl w ++ ">"

/-- The child loop of the `List` overload of `BuildSml` in `sml.cpp`:
each child at `lvl + 1`, each followed by a newline. -/
def BuildSmlElems (l : List Value) (lvl w : Nat) : String :=
  match l with
  | [] => ""
  | v :: rest => BuildSml v (lvl + 1) w ++ "\n" ++ BuildSmlElems rest lvl w

end

/-- `Message::ToSml` from `secs2.cpp`: render at level 0. -/
def ToSml (v : Value) (w : Nat := 4) : String := BuildSml v 0 w

/-- The body bytes a value serializes to after its header: `CopyValBytes`
for a leaf, the concatenated child serializations for a list. -/
def encBody : Value → List Nat
  | .item t vals => CopyValBytes t vals
  | .list elems => (BuildListElems elems []).1

/-- A hand-crafted header carrying an explicit length-byte count `n`: the
format byte holding `code` and `n`, followed by `n` big-endian length
bytes (the layout of §4.2 of the spec, generalizing `BuildHeaderBytes`
away from the minimal count). -/
def mkHandHeader (code n len : Nat) : List Nat :=
  ((code % 64) * 4 + n % 4) :: writeBE n len

/-! ### Basic facts about the byte-level helpers -/

theorem writeBE_length (w v : Nat) : (writeBE w v).length = w := by
  induction w generalizing v with
  | zero => rfl
  | succ w ih => simp [writeBE, ih]

theorem readBE_append (l : List Nat) (b : Nat) :
    readBE (l ++ [b]) = readBE l * 256 + b := by
  simp [readBE]

theorem readBE_writeBE (w v : Nat) : readBE (writeBE w v) = v % 256 ^ w := by
  induction w generalizing v with
  | zero => simp [writeBE, readBE, Nat.mod_one]
  | succ w ih =>
    rw [writeBE, readBE_append, ih]
    rw [pow_succ, Nat.mul_comm (256 ^ w) 256, Nat.mod_mul]
    omega

theorem readBE_writeBE_of_lt {w v : Nat} (h : v < 256 ^ w) :
    readBE (writeBE w v) = v := by
  rw [readBE_writeBE, Nat.mod_eq_of_lt h]

theorem writeBE_mem_lt {w v b : Nat} (h : b ∈ writeBE w v) : b < 256 := by
  induction w generalizing v with
  | zero => simp [writeBE] at h
  | succ w ih =>
    rw [writeBE] at h
    rcases List.mem_append.mp h with h | h
    · exact ih h
    · simp at h
      omega

/-- The value of `CalcLengthByteCount` for an admissible length, with its
bounds: the count is between 1 and 3, admits the length
(`len < 256 ^ n`), and is minimal (`256 ^ m ≤ len` for every smaller
`m`). -/
theorem calcLengthByteCount_spec {len : Nat} (h : len ≤ maxLength) :
    ∃ n, CalcLengthByteCount len = some n ∧ 1 ≤ n ∧ n ≤ 3 ∧ len < 256 ^ n ∧
      ∀ m, 1 ≤ m → m < n → 256 ^ m ≤ len := by
  simp only [maxLength] at h
  by_cases h1 : len ≤ 0xFF
  · exact ⟨1, by simp [CalcLengthByteCount, h1], by omega, by omega,
      by norm_num; omega, by omega⟩
  · by_cases h2 : len ≤ 0xFFFF
    · refine ⟨2, by simp [CalcLengthByteCount, h1, h2], by omega, by omega,
        by norm_num; omega, ?_⟩
      intro m hm1 hm
      have hm0 : m = 1 := by omega
      subst hm0
      norm_num
      omega
    · have h3 : IsNotExceedMaxLength len = true := by
        simp [IsNotExceedMaxLength, IsExceedMaxLength, maxLength]
        omega
      refine ⟨3, by simp [CalcLengthByteCount, h1, h2, h3], by omega, by omega,
        by norm_num; omega, ?_⟩
      intro m hm1 hm
      interval_cases m <;> norm_num <;> omega

theorem calcLengthByteCount_none {len : Nat} (h : maxLength < len) :
    CalcLengthByteCount len = none := by
  have h1 : ¬ len ≤ 0xFF := by simp [maxLength] at h; omega
  have h2 : ¬ len ≤ 0xFFFF := by simp [maxLength] at h; omega
  simp [CalcLengthByteCount, h1, h2, IsNotExceedMaxLength, IsExceedMaxLength, h]

theorem take_append_self (l1 l2 : List Nat) : (l1 ++ l2).take l1.length = l1 := by
  simp [List.take_append]

theorem drop_append_self (l1 l2 : List Nat) : (l1 ++ l2).drop l1.length = l2 := by
  simp [List.drop_append]

/-! ### The serializer appends, and rolls back to the pre-call buffer on
failure -/

mutual

/-- `BuildMsgBytes` only appends to the buffer, its outcome does not
depend on the buffer, and on failure nothing is appended. -/
theorem buildMsg_shift (v : Value) (buf : List Nat) :
    BuildMsgBytes v buf =
      (buf ++ (BuildMsgBytes v []).1, (BuildMsgBytes v []).2) := by
  match v with
  | .item t vals =>
    by_cases h : IsNotExceedMaxLength (vals.length * width t) <;>
      simp [BuildMsgBytes, h]
  | .list elems =>
    by_cases h : IsNotExceedMaxLength elems.length
    · rw [BuildMsgBytes]
      simp only [h, if_true]
      rw [buildElems_shift elems (buf ++ BuildHeaderBytes 0 elems.length)]
      conv_rhs => rw [BuildMsgBytes]
      simp only [h, if_true]
      rw [buildElems_shift elems ([] ++ BuildHeaderBytes 0 elems.length)]
      rcases hflag : (BuildListElems elems []).2 with _ | _ <;>
        simp [hflag, List.length_append, take_append_self]
    · simp [BuildMsgBytes, h]

/-- The child loop only appends to the buffer and its outcome does not
depend on the buffer. -/
theorem buildElems_shift (l : List Value) (buf : List Nat) :
    BuildListElems l buf =
      (buf ++ (BuildListElems l []).1, (BuildListElems l []).2) := by
  match l with
  | [] => simp [BuildListElems]
  | v :: rest =>
    rw [BuildListElems, buildMsg_shift v buf]
    conv_rhs => rw [BuildListElems, buildMsg_shift v []]
    rcases hr : (BuildMsgBytes v []).2 with _ | k
    · simp [hr]
    · simp only [hr]
      rw [buildElems_shift rest (buf ++ (BuildMsgBytes v []).1),
        buildElems_shift rest ([] ++ (BuildMsgBytes v []).1)]
      simp

end

/-- On failure the fresh-buffer serialization is empty. -/
theorem buildMsg_fail_empty {v : Value} (h : (BuildMsgBytes v []).2 = none) :
    (BuildMsgBytes v []).1 = [] := by
  match v with
  | .item t vals =>
    by_cases hl : IsNotExceedMaxLength (vals.length * width t) <;>
      simp [BuildMsgBytes, hl] at h ⊢
  | .list elems =>
    by_cases hl : IsNotExceedMaxLength elems.length
    · rw [BuildMsgBytes] at h ⊢
      simp only [hl, if_true] at h ⊢
      rw [buildElems_shift elems ([] ++ BuildHeaderBytes 0 elems.length)] at h ⊢
      rcases hflag : (BuildListElems elems []).2 with _ | _ <;>
        simp [hflag] at h ⊢
    · simp [BuildMsgBytes, hl]

/-- On failure the buffer is returned unchanged. -/
theorem buildMsg_fail_buf {v : Value} {buf : List Nat}
    (h : (BuildMsgBytes v buf).2 = none) : (BuildMsgBytes v buf).1 = buf := by
  rw [buildMsg_shift] at h ⊢
  simp at h
  simp [buildMsg_fail_empty h]

/-! ### Serialization fails exactly on an oversized node -/

mutual

/-- `BuildMsgBytes` fails exactly when some node's computed length
exceeds `max_length`. -/
theorem buildMsg_fail_iff (v : Value) :
    (BuildMsgBytes v []).2 = none ↔ HasOversized v = true := by
  match v with
  | .item t vals =>
    by_cases h : maxLength < vals.length * width t <;>
      simp [BuildMsgBytes, HasOversized, IsNotExceedMaxLength,
        IsExceedMaxLength, h]
  | .list elems =>
    by_cases h : IsNotExceedMaxLength elems.length
    · rw [BuildMsgBytes]
      simp only [h, if_true]
      rw [buildElems_shift elems ([] ++ BuildHeaderBytes 0 elems.length)]
      have hlen : ¬ maxLength < elems.length := by
        simp [IsNotExceedMaxLength, IsExceedMaxLength] at h
        omega
      rcases hflag : (BuildListElems elems []).2 with _ | _ <;>
        simp [hflag, HasOversized, hlen, ← buildElems_fail_iff elems]
    · simp [BuildMsgBytes, HasOversized, h]
      simp [IsNotExceedMaxLength, IsExceedMaxLength] at h
      omega

/-- The child loop fails exactly when some member has an oversized node. -/
theorem buildElems_fail_iff (l : List Value) :
    (BuildListElems l []).2 = false ↔ HasOversizedList l = true := by
  match l with
  | [] => simp [BuildListElems, HasOversizedList]
  | v :: rest =>
    rw [BuildListElems]
    rcases hr : BuildMsgBytes v [] with ⟨buf2, _ | k⟩
    · have hv : HasOversized v = true := by
        rw [← buildMsg_fail_iff v, hr]
      simp [HasOversizedList, hv]
    · have hv : ¬ HasOversized v = true := by
        rw [← buildMsg_fail_iff v, hr]
        simp
      have h2 := buildElems_shift rest buf2
      simp [HasOversizedList, hv, h2, ← buildElems_fail_iff rest]

end

/-! ### Structure of a successful serialization -/

theorem width_pos (t : LeafTy) : 0 < width t := by
  cases t <;> simp [width]

theorem getType_lt (v : Value) : GetType v < 64 := by
  cases v with
  | item t vals => cases t <;> simp [GetType, leafCode]
  | list elems => simp [GetType]

theorem codeToTy_getType (v : Value) :
    codeToTy (GetType v) =
      some (match v with | .item t _ => some t | .list _ => none) := by
  cases v with
  | item t vals => cases t <;> rfl
  | list elems => rfl

theorem copyValBytes_length (t : LeafTy) (vals : List Nat) :
    (CopyValBytes t vals).length = vals.length * width t := by
  induction vals with
  | nil => simp [CopyValBytes]
  | cons v rest ih =>
    simp only [CopyValBytes, List.map_cons, List.flatten_cons,
      List.length_append, writeBE_length, List.length_cons] at ih ⊢
    rw [ih]
    ring

theorem calcLength_le_of_not_oversized {v : Value}
    (h : HasOversized v = false) : CalcLength v ≤ maxLength := by
  cases v <;> simp [HasOversized, CalcLength] at h ⊢ <;> omega

/-- A successful fresh-buffer serialization is the header followed by the
body bytes. -/
theorem buildMsg_success_struct {v : Value}
    (hok : (BuildMsgBytes v []).2 ≠ none) :
    (BuildMsgBytes v []).1 =
      BuildHeaderBytes (GetType v) (CalcLength v) ++ encBody v := by
  match v with
  | .item t vals =>
    by_cases h : IsNotExceedMaxLength (vals.length * width t)
    · simp [BuildMsgBytes, h, GetType, CalcLength, encBody]
    · simp [BuildMsgBytes, h] at hok
  | .list elems =>
    by_cases h : IsNotExceedMaxLength elems.length
    · rw [BuildMsgBytes] at hok ⊢
      simp only [h, if_true] at hok ⊢
      rw [buildElems_shift elems ([] ++ BuildHeaderBytes 0 elems.length)]
        at hok ⊢
      rcases hflag : (BuildListElems elems []).2 with _ | _ <;>
        simp [hflag] at hok ⊢
      simp [GetType, CalcLength, encBody]
    · simp [BuildMsgBytes, h] at hok

/-- A successful list serialization has successful children. -/
theorem buildMsg_list_children_ok {elems : List Value}
    (hok : (BuildMsgBytes (.list elems) []).2 ≠ none) :
    (BuildListElems elems []).2 = true := by
  rcases hflag : (BuildListElems elems []).2 with _ | _
  · exfalso
    apply hok
    rw [buildMsg_fail_iff]
    simp only [HasOversized, Bool.or_eq_true, decide_eq_true_eq]
    right
    rw [← buildElems_fail_iff]
    exact hflag
  · rfl

/-! ### Decoding an encoded leaf body -/

theorem readElems_flatten {w : Nat} (vals : List Nat)
    (hwf : ∀ v ∈ vals, v < 256 ^ w) (S : List Nat) :
    readElems w vals.length ((vals.map (writeBE w)).flatten ++ S) = vals := by
  induction vals with
  | nil => simp [readElems]
  | cons v rest ih =>
    simp only [List.map_cons, List.flatten_cons, List.length_cons,
      List.append_assoc]
    rw [readElems]
    have hlen : (writeBE w v).length = w := writeBE_length w v
    have htake : (writeBE w v ++ ((rest.map (writeBE w)).flatten ++ S)).take w
        = writeBE w v := by
      have h := take_append_self (writeBE w v) ((rest.map (writeBE w)).flatten ++ S)
      rwa [hlen] at h
    have hdrop : (writeBE w v ++ ((rest.map (writeBE w)).flatten ++ S)).drop w
        = (rest.map (writeBE w)).flatten ++ S := by
      have h := drop_append_self (writeBE w v) ((rest.map (writeBE w)).flatten ++ S)
      rwa [hlen] at h
    rw [htake, hdrop, readBE_writeBE_of_lt (hwf v (by simp)),
      ih (fun x hx => hwf x (by simp [hx]))]

theorem copyValBytes_boolean {vals : List Nat} (hwf : ∀ v ∈ vals, v < 2) :
    CopyValBytes .boolean vals = vals := by
  induction vals with
  | nil => rfl
  | cons v rest ih =>
    have hv : v < 2 := hwf v (by simp)
    simp only [CopyValBytes, List.map_cons, List.flatten_cons] at ih ⊢
    rw [ih (fun x hx => hwf x (by simp [hx]))]
    simp [width, writeBE]
    omega

theorem bool_normalize {vals : List Nat} (hwf : ∀ v ∈ vals, v < 2) :
    (vals.map fun b => if b = 0 then 0 else 1) = vals := by
  induction vals with
  | nil => rfl
  | cons v rest ih =>
    have hv : v < 2 := hwf v (by simp)
    simp only [List.map_cons, ih (fun x hx => hwf x (by simp [hx]))]
    by_cases h : v = 0
    · simp [h]
    · simp [h]
      omega

/-- Decoding the concatenation of an encoded leaf body and any suffix
recovers the leaf's elements and consumes exactly the body. -/
theorem loadItem_copyValBytes {t : LeafTy} {vals : List Nat}
    (hwf : (wfV (.item t vals)) = true) (S : List Nat) :
    LoadItemValBytes t (CopyValBytes t vals ++ S) (vals.length * width t) =
      .ok (.item t vals, vals.length * width t) := by
  have hlen : (CopyValBytes t vals).length = vals.length * width t :=
    copyValBytes_length t vals
  have hbuf : ¬ (CopyValBytes t vals ++ S).length < vals.length * width t := by
    simp [List.length_append, hlen]
  by_cases hb : t = .boolean
  · subst hb
    simp only [wfV, List.all_eq_true, decide_eq_true_eq, if_true] at hwf
    simp only [width] at hbuf ⊢
    have hwf2 : ∀ v ∈ vals, v < 2 := by
      intro v hv
      simpa using hwf v hv
    rw [LoadItemValBytes]
    simp only [if_true, reduceIte]
    rw [LoadBoolValBytes]
    simp only [Nat.mul_one] at hbuf ⊢
    rw [if_neg hbuf, copyValBytes_boolean hwf2]
    rw [take_append_self vals S, bool_normalize hwf2]
  · simp only [wfV, List.all_eq_true, decide_eq_true_eq, if_neg hb] at hwf
    rw [LoadItemValBytes, if_neg hb, if_neg hbuf]
    have halign : vals.length * width t % width t = 0 := Nat.mul_mod_left _ _
    rw [if_neg (by simp [halign])]
    have hdiv : vals.length * width t / width t = vals.length :=
      Nat.mul_div_cancel _ (width_pos t)
    rw [hdiv]
    simp only [CopyValBytes]
    rw [readElems_flatten vals hwf S]

/-! ### One deserialization step on a well-formed header -/

/-- Unfolding `LoadMsgBytes` on a buffer that starts with a header whose
code is in the loader table and whose length-byte count is in range:
the selected loader runs on the bytes after the header. -/
theorem loadMsg_header_eq (g n len : Nat) (T : List Nat)
    (ty : Option LeafTy) (hg : g < 64) (hn1 : 1 ≤ n) (hn3 : n ≤ 3)
    (hlen : len < 256 ^ n) (hty : codeToTy g = some ty) :
    LoadMsgBytes (((g % 64) * 4 + n % 4) :: (writeBE n len ++ T)) =
      match ty with
      | none =>
        match LoadListElems T len with
        | .error e => .error e
        | .ok (vs, c) => .ok (.list vs, 1 + n + c)
      | some t =>
        match LoadItemValBytes t T len with
        | .error e => .error e
        | .ok (v, c) => .ok (v, 1 + n + c) := by
  have hg64 : g % 64 = g := Nat.mod_eq_of_lt hg
  have hn4 : n % 4 = n := Nat.mod_eq_of_lt (by omega)
  have hmod : ((g % 64) * 4 + n % 4) % 4 = n := by
    rw [hg64, hn4]
    omega
  have hdiv : (((g % 64) * 4 + n % 4) / 4) % 64 = g := by
    rw [hg64, hn4]
    have h1 : (g * 4 + n) / 4 = g := by omega
    rw [h1, hg64]
  have hexc : IsExceedLengthByteCountRange n = false := by
    simp [IsExceedLengthByteCountRange, IsNotExceedLengthByteCountRange,
      maxLenByteCount]
    omega
  have hwlen : (writeBE n len).length = n := writeBE_length n len
  have hrl : ReadLength (writeBE n len ++ T) n = some len := by
    rw [ReadLength, if_pos (by simp [List.length_append, hwlen])]
    have htake := take_append_self (writeBE n len) T
    rw [hwlen] at htake
    rw [htake, readBE_writeBE_of_lt hlen]
  have hdrop : (writeBE n len ++ T).drop n = T := by
    have h := drop_append_self (writeBE n len) T
    rwa [hwlen] at h
  rw [LoadMsgBytes]
  simp only [hmod, hdiv, hty, hexc, hrl, hdrop, Bool.false_eq_true, if_false]
  cases ty <;> rfl

/-! ### The round trip, tolerant of non-minimal length-byte counts -/

mutual

/-- Deserializing a buffer made of a header for `v` with any admissible
length-byte count `n`, followed by the serialized body of `v` and any
suffix, recovers `v` and consumes exactly the header and body. -/
theorem loadMsg_build_tolerant (v : Value) (n : Nat) (S : List Nat)
    (hwf : wfV v = true) (hok : (BuildMsgBytes v []).2 ≠ none)
    (hn1 : (CalcLengthByteCount (CalcLength v)).getD 0 ≤ n) (hn3 : n ≤ 3) :
    LoadMsgBytes (mkHandHeader (GetType v) n (CalcLength v) ++ (encBody v ++ S))
      = .ok (v, 1 + n + (encBody v).length) := by
  have hno : HasOversized v = false := by
    rcases h : HasOversized v with _ | _
    · rfl
    · exact absurd ((buildMsg_fail_iff v).mpr h) hok
  have hle : CalcLength v ≤ maxLength := calcLength_le_of_not_oversized hno
  obtain ⟨nm, hnm, hnm1, hnm3, hltm, hmin⟩ := calcLengthByteCount_spec hle
  have hgd : (CalcLengthByteCount (CalcLength v)).getD 0 = nm := by
    rw [hnm]
    rfl
  rw [hgd] at hn1
  have hbig : CalcLength v < 256 ^ n :=
    lt_of_lt_of_le hltm (Nat.pow_le_pow_right (by omega) hn1)
  cases v with
  | item t vals =>
    rw [mkHandHeader, List.cons_append,
      loadMsg_header_eq (GetType (.item t vals)) n (CalcLength (.item t vals))
        (encBody (.item t vals) ++ S) (some t) (getType_lt _) (by omega) hn3
        hbig (by rw [codeToTy_getType])]
    have hload := @loadItem_copyValBytes t vals hwf S
    simp only [CalcLength, encBody] at hload ⊢
    rw [hload]
    simp [copyValBytes_length]
  | list elems =>
    rw [mkHandHeader, List.cons_append,
      loadMsg_header_eq (GetType (.list elems)) n (CalcLength (.list elems))
        (encBody (.list elems) ++ S) none (getType_lt _) (by omega) hn3
        hbig (by rw [codeToTy_getType])]
    have hokl : (BuildListElems elems []).2 = true :=
      buildMsg_list_children_ok hok
    have hwfl : wfL elems = true := by
      simpa [wfV] using hwf
    have hload := loadElems_of_build elems S hwfl hokl
    simp only [CalcLength, encBody] at hload ⊢
    rw [hload]

/-- Deserializing the concatenated child serializations of a successful
list build, followed by any suffix, recovers the children and consumes
exactly their bytes. -/
theorem loadElems_of_build (l : List Value) (S : List Nat)
    (hwf : wfL l = true) (hok : (BuildListElems l []).2 = true) :
    LoadListElems ((BuildListElems l []).1 ++ S) l.length
      = .ok (l, (BuildListElems l []).1.length) := by
  cases l with
  | nil => simp [BuildListElems, LoadListElems]
  | cons v rest =>
    rcases hr : BuildMsgBytes v [] with ⟨Ev, rv⟩
    rcases rv with _ | k
    · rw [BuildListElems, hr] at hok
      simp at hok
    · have hokv : (BuildMsgBytes v []).2 ≠ none := by
        rw [hr]
        simp
      have hwf2 : wfV v = true ∧ wfL rest = true := by
        simpa [wfL, Bool.and_eq_true] using hwf
      have hbl : BuildListElems (v :: rest) []
          = (Ev ++ (BuildListElems rest []).1, (BuildListElems rest []).2) := by
        rw [BuildListElems, hr]
        show BuildListElems rest Ev = _
        rw [buildElems_shift rest Ev]
      have hokr : (BuildListElems rest []).2 = true := by
        rw [hbl] at hok
        exact hok
      have hEv : Ev = BuildHeaderBytes (GetType v) (CalcLength v) ++ encBody v := by
        have h := buildMsg_success_struct hokv
        rw [hr] at h
        exact h
      have hno : HasOversized v = false := by
        rcases h : HasOversized v with _ | _
        · rfl
        · exact absurd ((buildMsg_fail_iff v).mpr h) hokv
      have hle : CalcLength v ≤ maxLength := calcLength_le_of_not_oversized hno
      obtain ⟨nm, hnm, hnm1, hnm3, hltm, hmin⟩ := calcLengthByteCount_spec hle
      have hgd : (CalcLengthByteCount (CalcLength v)).getD 0 = nm := by
        rw [hnm]
        rfl
      have hhdr : BuildHeaderBytes (GetType v) (CalcLength v)
          = mkHandHeader (GetType v) nm (CalcLength v) := by
        rw [BuildHeaderBytes, BuildFormatByte, LengthBytes, mkHandHeader, hgd]
      have hdec := loadMsg_build_tolerant v nm ((BuildListElems rest []).1 ++ S)
        hwf2.1 hokv (le_of_eq hgd) hnm3
      have hEvlen : Ev.length = 1 + nm + (encBody v).length := by
        rw [hEv, hhdr, mkHandHeader]
        simp [List.length_append, writeBE_length]
        omega
      have harr : Ev ++ ((BuildListElems rest []).1 ++ S)
          = mkHandHeader (GetType v) nm (CalcLength v)
            ++ (encBody v ++ ((BuildListElems rest []).1 ++ S)) := by
        rw [hEv, hhdr, List.append_assoc]
      have hdrop : (mkHandHeader (GetType v) nm (CalcLength v)
            ++ (encBody v ++ ((BuildListElems rest []).1 ++ S))).drop
            (1 + nm + (encBody v).length)
          = (BuildListElems rest []).1 ++ S := by
        rw [← harr, ← hEvlen, drop_append_self]
      rw [hbl]
      simp only [List.length_cons, List.append_assoc]
      simp only [LoadListElems, harr, hdec, hdrop,
        loadElems_of_build rest S hwf2.2 hokr]
      simp only [List.length_append, hEvlen]

end

/-! ### Small derived facts -/

theorem readElems_length (w n : Nat) (bytes : List Nat) :
    (readElems w n bytes).length = n := by
  induction n generalizing bytes with
  | zero => rfl
  | succ n ih => simp [readElems, ih]

theorem buildMsg_count_eq {v : Value} {bytes : List Nat} {k : Nat}
    (h : BuildMsgBytes v [] = (bytes, some k)) : k = bytes.length := by
  cases v with
  | item t vals =>
    by_cases hl : IsNotExceedMaxLength (vals.length * width t)
    · rw [BuildMsgBytes] at h
      simp only [hl, if_true, List.nil_append, Prod.mk.injEq,
        Option.some.injEq, List.length_nil, Nat.sub_zero] at h
      obtain ⟨h1, h2⟩ := h
      rw [← h1, ← h2]
    · simp [BuildMsgBytes, hl] at h
  | list elems =>
    by_cases hl : IsNotExceedMaxLength elems.length
    · rw [BuildMsgBytes] at h
      simp only [hl, if_true] at h
      rw [buildElems_shift elems ([] ++ BuildHeaderBytes 0 elems.length)] at h
      rcases hflag : (BuildListElems elems []).2 with _ | _
      · simp only [hflag, Prod.mk.injEq] at h
        exact absurd h.2 (by simp)
      · simp only [hflag, List.nil_append, Prod.mk.injEq, Option.some.injEq,
          List.length_nil, Nat.sub_zero] at h
        obtain ⟨h1, h2⟩ := h
        rw [← h1, ← h2]
    · simp [BuildMsgBytes, hl] at h

theorem string_foldl_append (l : List String) (s : String) :
    List.foldl (fun r t => r ++ t) s l
      = s ++ List.foldl (fun r t => r ++ t) "" l := by
  induction l generalizing s with
  | nil => simp
  | cons a as ih =>
    simp only [List.foldl_cons]
    rw [ih (s ++ a), ih ("" ++ a), String.append_assoc]
    rfl

theorem string_join_cons (s : String) (l : List String) :
    String.join (s :: l) = s ++ String.join l := by
  simp only [String.join, List.foldl_cons]
  rw [string_foldl_append]
  rfl

theorem buildSmlElems_join (l : List Value) (lvl w : Nat) :
    BuildSmlElems l lvl w
      = String.join (l.map fun c => BuildSml c (lvl + 1) w ++ "\n") := by
  induction l with
  | nil => rfl
  | cons v rest ih =>
    rw [BuildSmlElems, ih, List.map_cons, string_join_cons, String.append_assoc]

theorem buildSml_indent (v : Value) (lvl w : Nat) :
    ∃ rest, BuildSml v lvl w = BuildIndent lvl w ++ rest := by
  cases v with
  | item t vals =>
    rw [BuildSml]
    simp only [BuildItemSml]
    by_cases ha : t = .ascii
    · by_cases he : vals.isEmpty = true
      · rw [if_pos ha, if_pos he]
        exact ⟨"<A [0]>", rfl⟩
      · rw [if_pos ha, if_neg he]
        exact ⟨"<A [" ++ toString vals.length ++ "] \""
            ++ String.mk (vals.map fun v => Char.ofNat (v % 256)) ++ "\">",
          by simp only [String.append_assoc]⟩
    · by_cases he : vals.isEmpty = true
      · rw [if_neg ha, if_pos he]
        exact ⟨"<" ++ formatTag t ++ " [0]>",
          by simp only [String.append_assoc]⟩
      · rw [if_neg ha, if_neg he]
        exact ⟨"<" ++ formatTag t ++ " [" ++ toString vals.length ++ "] "
            ++ String.intercalate " " (vals.map (formatElem t)) ++ ">",
          by simp only [String.append_assoc]⟩
  | list elems =>
    rw [BuildSml]
    exact ⟨"<L [" ++ toString elems.length ++ "]" ++ "\n"
        ++ BuildSmlElems elems lvl w ++ BuildIndent lvl w ++ ">",
      by simp only [String.append_assoc]⟩

/-! ### Claims -/

/-- C10: deserializing an empty byte buffer fails with the incomplete-data
error (kind `std::errc::message_size`), producing no value. -/
theorem c10_empty_buffer_incomplete :
    LoadMsgBytes ([] : List Nat) = .error MakeIncompleteDataError ∧
      MakeIncompleteDataError.code = ErrCode.messageSize := by
  constructor
  · rw [LoadMsgBytes]
  · rfl

/-- C7 counterexample: the buffer `[0xFD]` declares one length byte and is
one byte short of a complete header, yet `LoadMsgBytes` reports the
unknown-type error for code `0b111111 = 63`, not the incomplete-data
error: the loader-table lookup happens before the length-byte
availability check. -/
theorem c7_counterexample :
    LoadMsgBytes [0xFD] = .error (MakeUnknownTypeError 63) ∧
      MakeUnknownTypeError 63 ≠ MakeIncompleteDataError ∧
      (MakeUnknownTypeError 63).code ≠ MakeIncompleteDataError.code := by
  refine ⟨?_, by decide, by decide⟩
  simp [LoadMsgBytes, IsExceedLengthByteCountRange,
    IsNotExceedLengthByteCountRange, codeToTy, maxLenByteCount]

/-- C7 (amended): when the first byte declares `N ∈ {1,2,3}` length bytes
and its format code is one of the 14 known codes, a buffer with fewer than
`1 + N` bytes fails with the incomplete-data error; when the format code
is unknown, the unknown-type error takes precedence regardless of how many
bytes remain. -/
theorem c7_amended :
    (∀ (b : Nat) (rest : List Nat),
      IsExceedLengthByteCountRange (b % 4) = false →
      codeToTy (b / 4 % 64) ≠ none →
      rest.length < b % 4 →
      LoadMsgBytes (b :: rest) = .error MakeIncompleteDataError) ∧
    (∀ (b : Nat) (rest : List Nat),
      IsExceedLengthByteCountRange (b % 4) = false →
      codeToTy (b / 4 % 64) = none →
      LoadMsgBytes (b :: rest) = .error (MakeUnknownTypeError (b / 4 % 64))) := by
  constructor
  · intro b rest hn hty hlen
    rcases hty2 : codeToTy (b / 4 % 64) with _ | ty
    · exact absurd hty2 hty
    · have hrl : ReadLength rest (b % 4) = none := by
        rw [ReadLength, if_neg (by omega)]
      rw [LoadMsgBytes]
      simp only [hn, Bool.false_eq_true, if_false, hty2, hrl]
  · intro b rest hn hty
    rw [LoadMsgBytes]
    simp only [hn, Bool.false_eq_true, if_false, hty]

/-- C7 witness: `[0xAA, 0x05]` (format code `0b101010` = U2, N = 2, only
one length byte present) fails with the incomplete-data error. -/
theorem c7_witness :
    LoadMsgBytes [0xAA, 0x05] = .error MakeIncompleteDataError :=
  c7_amended.1 0xAA [0x05] (by decide) (by decide) (by decide)

/-- C8 counterexample: the unaligned-length error carries the same machine
kind (`std::errc::message_size`) as the incomplete-data error, and the
invalid-length-byte-count error carries the same machine kind
(`std::errc::argument_out_of_domain`) as the unknown-type error, although
the errors themselves differ — the four failure classes are not pairwise
distinguishable by machine kind alone. -/
theorem c8_counterexample :
    (MakeUnalignedLengthError 3 .u2 2).code = MakeIncompleteDataError.code ∧
    (MakeInvalidLengthByteCountError 0).code = (MakeUnknownTypeError 63).code ∧
    MakeUnalignedLengthError 3 .u2 2 ≠ MakeIncompleteDataError ∧
    MakeInvalidLengthByteCountError 0 ≠ MakeUnknownTypeError 63 := by
  refine ⟨rfl, rfl, by decide, by decide⟩

/-- C8 (amended): each decode error carries a machine kind
(`std::error_code`) and a human-readable message; the kind separates
incomplete-data and unaligned-length (`message_size`) from unknown-type
and invalid-length-byte-count (`argument_out_of_domain`), but does not
distinguish the members of either pair — that requires the message. -/
theorem c8_amended :
    MakeIncompleteDataError.code = ErrCode.messageSize ∧
    (∀ (len : Nat) (t : LeafTy) (a : Nat),
      (MakeUnalignedLengthError len t a).code = ErrCode.messageSize) ∧
    (∀ c : Nat, (MakeUnknownTypeError c).code = ErrCode.argumentOutOfDomain) ∧
    (∀ c : Nat,
      (MakeInvalidLengthByteCountError c).code = ErrCode.argumentOutOfDomain) ∧
    ErrCode.messageSize ≠ ErrCode.argumentOutOfDomain := by
  exact ⟨rfl, fun _ _ _ => rfl, fun _ => rfl, fun _ => rfl, by decide⟩

/-- C5: the Boolean codec is asymmetric but round-tripping: encoding emits
exactly one byte per element — 1 for `true`, 0 for `false` — while
decoding maps any nonzero payload byte (including `0xFF`) to `true` and
only `0x00` to `false`; decoding `[0x25, 0x03, 0x01, 0xFF, 0x00]` yields
`Boolean{true, true, false}`. -/
theorem c5_boolean_codec :
    (∀ bs : List Bool, CopyBoolValBytes bs = bs.map boolToNat
        ∧ (CopyBoolValBytes bs).length = bs.length) ∧
    (∀ b : Nat, b ≠ 0 → LoadBoolValBytes [b] 1
        = .ok (.item .boolean [boolToNat true], 1)) ∧
    LoadBoolValBytes [0] 1 = .ok (.item .boolean [boolToNat false], 1) ∧
    LoadMsgBytes [0x25, 0x03, 0x01, 0xFF, 0x00]
      = .ok (.item .boolean ([true, true, false].map boolToNat), 5) := by
  refine ⟨?_, ?_, rfl, ?_⟩
  · intro bs
    exact ⟨rfl, by simp [CopyBoolValBytes]⟩
  · intro b hb
    rw [LoadBoolValBytes]
    simp [hb, boolToNat]
  · simp [LoadMsgBytes, LoadItemValBytes, LoadBoolValBytes, ReadLength, readBE,
      IsExceedLengthByteCountRange, IsNotExceedLengthByteCountRange, codeToTy,
      maxLenByteCount, boolToNat]

/-- C5 witness: the nonzero byte `0xFF` decodes to `true`. -/
theorem c5_witness :
    LoadBoolValBytes [0xFF] 1 = .ok (.item .boolean [boolToNat true], 1) :=
  c5_boolean_codec.2.1 0xFF (by decide)

/-- C6: for a leaf of element width `W` and a declared length `L` that is
available in the buffer, decoding the leaf body fails with the
unaligned-length error exactly when `L mod W ≠ 0`; when aligned it
succeeds with `L / W` elements, consuming `L` bytes. -/
theorem c6_unaligned_length (t : LeafTy) (bytes : List Nat) (L : Nat)
    (hbuf : L ≤ bytes.length) :
    (LoadItemValBytes t bytes L
        = .error (MakeUnalignedLengthError L t (width t)) ↔ L % width t ≠ 0) ∧
    (L % width t = 0 →
      ∃ vals, LoadItemValBytes t bytes L = .ok (.item t vals, L)
        ∧ vals.length = L / width t) := by
  have hnl : ¬ bytes.length < L := by omega
  by_cases hb : t = .boolean
  · subst hb
    rw [LoadItemValBytes, if_pos rfl, LoadBoolValBytes, if_neg hnl]
    constructor
    · constructor
      · intro h
        exact absurd h (by simp)
      · simp [width, Nat.mod_one]
    · intro _
      refine ⟨_, rfl, ?_⟩
      simp only [List.length_map, List.length_take, width]
      omega
  · rw [LoadItemValBytes, if_neg hb, if_neg hnl]
    by_cases ha : L % width t = 0
    · rw [if_neg (by simp [ha])]
      constructor
      · constructor
        · intro h
          exact absurd h (by simp)
        · intro h
          exact absurd ha h
      · intro _
        exact ⟨_, rfl, readElems_length _ _ _⟩
    · rw [if_pos (by simp [ha])]
      constructor
      · simp [ha]
      · intro h
        exact absurd h ha

/-- C6 witness: a U2 body with `L = 3` fails unaligned, while `L = 2` and
`L = 0` succeed with 1 and 0 elements. -/
theorem c6_witness :
    LoadItemValBytes .u2 [0, 1, 2] 3
        = .error (MakeUnalignedLengthError 3 .u2 (width .u2)) ∧
      (∃ vals, LoadItemValBytes .u2 [0, 1, 2] 2 = .ok (.item .u2 vals, 2)
        ∧ vals.length = 2 / width .u2) ∧
      (∃ vals, LoadItemValBytes .u2 [0, 1, 2] 0 = .ok (.item .u2 vals, 0)
        ∧ vals.length = 0 / width .u2) := by
  refine ⟨?_, ?_, ?_⟩
  · exact (c6_unaligned_length .u2 [0, 1, 2] 3 (by decide)).1.mpr (by decide)
  · exact (c6_unaligned_length .u2 [0, 1, 2] 2 (by decide)).2 (by decide)
  · exact (c6_unaligned_length .u2 [0, 1, 2] 0 (by decide)).2 (by decide)

/-- C3: the encoder's number of length bytes is the minimum admitting the
node's length `L`: `CalcLengthByteCount` yields 1 for `L ≤ 0xFF`, 2 for
`0xFF < L ≤ 0xFFFF`, 3 for `0xFFFF < L ≤ 0xFFFFFF`; the emitted length
bytes have exactly that count, the format byte's low two bits hold it,
it admits `L` (`L < 256 ^ n`) and no smaller positive count does. -/
theorem c3_minimal_length_byte_count (L : Nat) (hL : L ≤ maxLength) :
    ∃ n, CalcLengthByteCount L = some n ∧
      (LengthBytes L).length = n ∧
      (∀ code, BuildFormatByte code L % 4 = n) ∧
      L < 256 ^ n ∧ (∀ m, 1 ≤ m → m < n → 256 ^ m ≤ L) ∧
      (L ≤ 0xFF → n = 1) ∧ (0xFF < L → L ≤ 0xFFFF → n = 2) ∧
      (0xFFFF < L → n = 3) := by
  obtain ⟨nm, hnm, hnm1, hnm3, hlt, hmin⟩ := calcLengthByteCount_spec hL
  have hgd : (CalcLengthByteCount L).getD 0 = nm := by
    rw [hnm]
    rfl
  refine ⟨nm, hnm, ?_, ?_, hlt, hmin, ?_, ?_, ?_⟩
  · rw [LengthBytes, hgd, writeBE_length]
  · intro code
    rw [BuildFormatByte, hgd]
    omega
  · intro h
    rw [CalcLengthByteCount, if_pos h] at hnm
    exact (Option.some.inj hnm).symm
  · intro h1 h2
    rw [CalcLengthByteCount, if_neg (by omega), if_pos h2] at hnm
    exact (Option.some.inj hnm).symm
  · intro h1
    have hmax : IsNotExceedMaxLength L = true := by
      simp only [maxLength] at hL
      simp [IsNotExceedMaxLength, IsExceedMaxLength, maxLength]
      omega
    rw [CalcLengthByteCount, if_neg (by omega), if_neg (by omega),
      if_pos hmax] at hnm
    exact (Option.some.inj hnm).symm

/-- C3 witness: the boundary lengths `0xFF`, `0x100` and `0x10000` use 1,
2 and 3 length bytes respectively. -/
theorem c3_witness :
    CalcLengthByteCount 0xFF = some 1 ∧ CalcLengthByteCount 0x100 = some 2 ∧
      CalcLengthByteCount 0x10000 = some 3 := by
  obtain ⟨n1, e1, -, -, -, -, t1, -, -⟩ :=
    c3_minimal_length_byte_count 0xFF (by decide)
  obtain ⟨n2, e2, -, -, -, -, -, t2, -⟩ :=
    c3_minimal_length_byte_count 0x100 (by decide)
  obtain ⟨n3, e3, -, -, -, -, -, -, t3⟩ :=
    c3_minimal_length_byte_count 0x10000 (by decide)
  refine ⟨?_, ?_, ?_⟩
  · rw [e1, t1 (by norm_num)]
  · rw [e2, t2 (by norm_num) (by norm_num)]
  · rw [e3, t3 (by norm_num)]

/-- C2: serialization fails exactly when some node of the value has a
computed length above `max_length` (payload byte count for a leaf,
direct-child count for a list), and on failure the output buffer holds
exactly its pre-call contents — encoding is all-or-nothing.  The same
failure condition governs `Message::ToBytes`. -/
theorem c2_encode_fail_iff_oversized (v : Value) (buf : List Nat) :
    ((BuildMsgBytes v buf).2 = none ↔ HasOversized v = true) ∧
    ((BuildMsgBytes v buf).2 = none → (BuildMsgBytes v buf).1 = buf) ∧
    (ToBytes v = none ↔ HasOversized v = true) := by
  refine ⟨?_, fun h => buildMsg_fail_buf h, ?_⟩
  · rw [buildMsg_shift]
    simpa using buildMsg_fail_iff v
  · rw [ToBytes]
    rcases hr : BuildMsgBytes v [] with ⟨bts, _ | k⟩
    · have h0 : (BuildMsgBytes v []).2 = none := by
        rw [hr]
      simp [(buildMsg_fail_iff v).mp h0]
    · have h0 : (BuildMsgBytes v []).2 ≠ none := by
        rw [hr]
        simp
      have h2 : ¬ HasOversized v = true := fun hh =>
        h0 ((buildMsg_fail_iff v).mpr hh)
      simp [h2]

/-- C2 witness: the claim instantiated at a small in-range leaf and a
nonempty pre-call buffer. -/
theorem c2_witness :
    (((BuildMsgBytes (.item .u1 [7]) [3]).2 = none)
        ↔ HasOversized (.item .u1 [7]) = true) ∧
    ((BuildMsgBytes (.item .u1 [7]) [3]).2 = none
        → (BuildMsgBytes (.item .u1 [7]) [3]).1 = [3]) ∧
    (ToBytes (.item .u1 [7]) = none ↔ HasOversized (.item .u1 [7]) = true) :=
  c2_encode_fail_iff_oversized (.item .u1 [7]) [3]

/-- C1: for every well-formed value whose serialization succeeds and every
byte suffix, deserializing the serialization followed by the suffix
succeeds, returns a value structurally equal to the original, consumes
exactly the serialized length, and ignores the suffix; the reported
appended count equals the serialized length. -/
theorem c1_roundtrip_prefix_tolerance (v : Value) (S bytes : List Nat)
    (k : Nat) (hwf : wfV v = true)
    (henc : BuildMsgBytes v [] = (bytes, some k)) :
    LoadMsgBytes (bytes ++ S) = .ok (v, bytes.length) ∧ k = bytes.length := by
  have hok : (BuildMsgBytes v []).2 ≠ none := by
    rw [henc]
    simp
  have hbytes : bytes = (BuildMsgBytes v []).1 := by
    rw [henc]
  have hstruct := buildMsg_success_struct hok
  have hno : HasOversized v = false := by
    rcases h : HasOversized v with _ | _
    · rfl
    · exact absurd ((buildMsg_fail_iff v).mpr h) hok
  have hle := calcLength_le_of_not_oversized hno
  obtain ⟨nm, hnm, hnm1, hnm3, hltm, hmin⟩ := calcLengthByteCount_spec hle
  have hgd : (CalcLengthByteCount (CalcLength v)).getD 0 = nm := by
    rw [hnm]
    rfl
  have hhdr : BuildHeaderBytes (GetType v) (CalcLength v)
      = mkHandHeader (GetType v) nm (CalcLength v) := by
    rw [BuildHeaderBytes, BuildFormatByte, LengthBytes, mkHandHeader, hgd]
  have hb2 : bytes = mkHandHeader (GetType v) nm (CalcLength v) ++ encBody v := by
    rw [hbytes, hstruct, hhdr]
  have hdec := loadMsg_build_tolerant v nm S hwf hok (le_of_eq hgd) hnm3
  have hblen : bytes.length = 1 + nm + (encBody v).length := by
    rw [hb2, mkHandHeader]
    simp [List.length_append, writeBE_length]
    omega
  refine ⟨?_, ?_⟩
  · have hhl : (mkHandHeader (GetType v) nm (CalcLength v)).length
        = 1 + nm := by
      rw [mkHandHeader]
      simp [writeBE_length]
      omega
    rw [hb2, List.append_assoc, hdec]
    simp only [List.length_append, hhl, Except.ok.injEq, Prod.mk.injEq,
      true_and]
  · rw [buildMsg_count_eq henc]

/-- C1 witness: the list `[U1{1,2}, Boolean{true}]` serializes to nine
bytes and deserializes back from those bytes plus a suffix byte,
consuming exactly nine. -/
theorem c1_witness :
    LoadMsgBytes ([0x01, 0x02, 0xA5, 0x02, 0x01, 0x02, 0x25, 0x01, 0x01]
        ++ [0xEE])
      = .ok (.list [.item .u1 [1, 2], .item .boolean [1]],
          ([0x01, 0x02, 0xA5, 0x02, 0x01, 0x02, 0x25, 0x01, 0x01]
            : List Nat).length) ∧
    9 = ([0x01, 0x02, 0xA5, 0x02, 0x01, 0x02, 0x25, 0x01, 0x01]
      : List Nat).length :=
  c1_roundtrip_prefix_tolerance
    (.list [.item .u1 [1, 2], .item .boolean [1]]) [0xEE]
    [0x01, 0x02, 0xA5, 0x02, 0x01, 0x02, 0x25, 0x01, 0x01] 9
    (by decide) (by decide)

/-- C4: the decoder accepts any legal length-byte count at least the
minimal one: a hand-crafted buffer carrying the value's format code and
length with `n` length bytes, followed by the value's serialized body
(the serialization after its header) and any suffix, deserializes to the
same value. -/
theorem c4_decoder_tolerance (v : Value) (n : Nat) (S bytes : List Nat)
    (k : Nat) (hwf : wfV v = true)
    (henc : BuildMsgBytes v [] = (bytes, some k))
    (hn1 : (CalcLengthByteCount (CalcLength v)).getD 0 ≤ n) (hn3 : n ≤ 3) :
    LoadMsgBytes (mkHandHeader (GetType v) n (CalcLength v)
        ++ (bytes.drop (1 + (CalcLengthByteCount (CalcLength v)).getD 0) ++ S))
      = .ok (v, 1 + n
          + (bytes.length
            - (1 + (CalcLengthByteCount (CalcLength v)).getD 0))) := by
  have hok : (BuildMsgBytes v []).2 ≠ none := by
    rw [henc]
    simp
  have hbytes : bytes = (BuildMsgBytes v []).1 := by
    rw [henc]
  have hstruct := buildMsg_success_struct hok
  have hno : HasOversized v = false := by
    rcases h : HasOversized v with _ | _
    · rfl
    · exact absurd ((buildMsg_fail_iff v).mpr h) hok
  have hle := calcLength_le_of_not_oversized hno
  obtain ⟨nm, hnm, hnm1, hnm3, hltm, hmin⟩ := calcLengthByteCount_spec hle
  have hgd : (CalcLengthByteCount (CalcLength v)).getD 0 = nm := by
    rw [hnm]
    rfl
  have hhdr : BuildHeaderBytes (GetType v) (CalcLength v)
      = mkHandHeader (GetType v) nm (CalcLength v) := by
    rw [BuildHeaderBytes, BuildFormatByte, LengthBytes, mkHandHeader, hgd]
  have hb2 : bytes = mkHandHeader (GetType v) nm (CalcLength v) ++ encBody v := by
    rw [hbytes, hstruct, hhdr]
  have hhl : (mkHandHeader (GetType v) nm (CalcLength v)).length = 1 + nm := by
    rw [mkHandHeader]
    simp [writeBE_length]
    omega
  have hdrop : bytes.drop (1 + (CalcLengthByteCount (CalcLength v)).getD 0)
      = encBody v := by
    rw [hgd, hb2, ← hhl, drop_append_self]
  have hblen : bytes.length
      - (1 + (CalcLengthByteCount (CalcLength v)).getD 0)
      = (encBody v).length := by
    rw [hgd, hb2]
    simp [List.length_append, hhl]
  rw [hgd] at hn1
  rw [hdrop, hblen]
  exact loadMsg_build_tolerant v n S hwf hok (by rw [hgd]; exact hn1) hn3

/-- C4 witness: `U1{7}` has minimal count 1; a hand-crafted header with
two length bytes (`[0xA6, 0x00, 0x01]`) followed by the body `[7]`
deserializes to the same value, consuming four bytes. -/
theorem c4_witness :
    LoadMsgBytes (mkHandHeader (GetType (.item .u1 [7])) 2
        (CalcLength (.item .u1 [7]))
        ++ (([0xA5, 0x01, 0x07] : List Nat).drop
            (1 + (CalcLengthByteCount
              (CalcLength (.item .u1 [7]))).getD 0) ++ []))
      = .ok (.item .u1 [7], 1 + 2
          + (([0xA5, 0x01, 0x07] : List Nat).length
            - (1 + (CalcLengthByteCount
              (CalcLength (.item .u1 [7]))).getD 0))) :=
  c4_decoder_tolerance (.item .u1 [7]) 2 [] [0xA5, 0x01, 0x07] 3
    (by decide) (by decide) (by decide) (by decide)

/-- C9: the SML printer renders a list as its own indent and `<L [n]`
(with `n` the direct-child count) on the first line, each child rendered
at the next indent level on its own line, and a closing `>` at the
parent's indent; every rendering starts with its level's indent of
`level × indent_width` spaces, and an empty list at level 0 renders as
`<L [0]`, a newline, and `>`. -/
theorem c9_sml_list_layout :
    (∀ (elems : List Value) (lvl w : Nat),
      BuildSml (.list elems) lvl w
        = BuildIndent lvl w ++ "<L [" ++ toString elems.length ++ "]" ++ "\n"
          ++ String.join (elems.map fun c => BuildSml c (lvl + 1) w ++ "\n")
          ++ BuildIndent lvl w ++ ">") ∧
    (∀ (v : Value) (lvl w : Nat), ∃ rest,
      BuildSml v lvl w = BuildIndent lvl w ++ rest) ∧
    (∀ lvl w, (BuildIndent lvl w).length = lvl * w
      ∧ BuildIndent lvl w = String.mk (List.replicate (lvl * w) ' ')) ∧
    (∀ w, BuildSml (.list []) 0 w = "<L [0]" ++ "\n" ++ ">") := by
  refine ⟨?_, buildSml_indent, ?_, ?_⟩
  · intro elems lvl w
    rw [BuildSml, buildSmlElems_join]
  · intro lvl w
    exact ⟨by simp [BuildIndent, String.length], rfl⟩
  · intro w
    rw [BuildSml, BuildSmlElems]
    simp only [BuildIndent, Nat.zero_mul, List.length_nil]
    decide

/-- C9 witness: the layout at a concrete two-child list, one level deep,
with `indent_width = 4`. -/
theorem c9_witness :
    BuildSml (.list [.item .u1 [7], .list []]) 1 4
      = BuildIndent 1 4 ++ "<L ["
        ++ toString ([.item .u1 [7], .list (([] : List Value))]
          : List Value).length ++ "]" ++ "\n"
        ++ String.join (([.item .u1 [7], .list []] : List Value).map
          fun c => BuildSml c (1 + 1) 4 ++ "\n")
        ++ BuildIndent 1 4 ++ ">" :=
  c9_sml_list_layout.1 [.item .u1 [7], .list []] 1 4

end Secs2
